import Mathlib

/-!
Verification of the Temporal Anomaly Segmentation, Clip Assembly, and
Range-Serving subsystem of the crowd-monitoring backend.

The Python source (`Back_End/fyp.py`, `Back_End/main.py`) is shallowly
embedded here: timestamps become rationals, byte files become lists of
naturals, the filesystem swept by the artifact lifecycle manager becomes an
explicit record of directory listings, and fallible operations return
`Except`.
-/

/-! ## Temporal Segmenter (`find_abnormal_segments`, fyp.py lines 111-124) -/

/-- The accumulation loop of `find_abnormal_segments`: `segs` is the list of
closed segments, `(s, e)` the open current segment, and the remaining
timestamps are walked in order.  Mirrors the `for t in timestamps[1:]` loop. -/
def segLoop (gap : ℚ) : List (ℚ × ℚ) → ℚ → ℚ → List ℚ → List (ℚ × ℚ)
  | segs, s, e, [] => segs ++ [(s, e)]
  | segs, s, e, t :: ts =>
      if t - e ≤ gap then segLoop gap segs s t ts
      else segLoop gap (segs ++ [(s, e)]) t t ts

/-- Embedding of `find_abnormal_segments`, including the in-place `timestamps.sort()`:
the first component of the result is the final state of the argument list,
the second the returned segments.  The Python `list.sort` is an ascending
stable sort, modelled by `List.insertionSort (· ≤ ·)`. -/
def find_abnormal_segments_run (timestamps : List ℚ) (gap : ℚ) :
    List ℚ × List (ℚ × ℚ) :=
  if timestamps.isEmpty then (timestamps, [])
  else
    match timestamps.insertionSort (· ≤ ·) with
    | [] => (timestamps, [])
    | t0 :: rest => (t0 :: rest, segLoop gap [] t0 t0 rest)

/-- The value returned by `find_abnormal_segments`. -/
def find_abnormal_segments (timestamps : List ℚ) (gap : ℚ) : List (ℚ × ℚ) :=
  (find_abnormal_segments_run timestamps gap).2

/-- Modelled from the spec: one step of the segmenter as §4.2 words it —
state is (closed segments, current.start, current.end); if `t - current.end ≤ g`
extend `current.end = t`, otherwise close `current` and start a new segment
at `t`.  Used only to compare the algorithm of the spec with the code. -/
def specStep (g : ℚ) (st : List (ℚ × ℚ) × ℚ × ℚ) (t : ℚ) :
    List (ℚ × ℚ) × ℚ × ℚ :=
  if t - st.2.2 ≤ g then (st.1, st.2.1, t)
  else (st.1 ++ [(st.2.1, st.2.2)], t, t)

/-- Modelled from the spec: sort ascending, start the current segment at
`(t0, t0)`, fold `specStep` over the remaining timestamps, close the final
open segment; empty input yields empty output. -/
def segmentsSpec (timestamps : List ℚ) (g : ℚ) : List (ℚ × ℚ) :=
  match timestamps.insertionSort (· ≤ ·) with
  | [] => []
  | t0 :: rest =>
      let st := rest.foldl (specStep g) ([], t0, t0)
      st.1 ++ [(st.2.1, st.2.2)]

/-- The relation holding between consecutive output segments. -/
def SegRel (gap : ℚ) (p q : ℚ × ℚ) : Prop := p.1 ≤ q.1 ∧ q.1 - p.2 > gap

/-! ## Margin clamping (fyp.py lines 256-262, main.py lines 223-229) -/

/-- The expanded clip bounds computed in `process_video` before
`export_clip`: `start = max(0, s - MARGIN_S)`, `end = min(vlen, e + MARGIN_S)`. -/
def margined_bounds (s e m L : ℚ) : ℚ × ℚ :=
  (max 0 (s - m), min L (e + m))

/-! ## Range-Serving Endpoint (`_range_file`, fyp.py lines 343-371)

A file is an optional list of bytes (`none` = missing), the `Range` header
an optional string.  `re.match(r"bytes=(\d+)-(\d*)", h)` anchors at the
start only, demands one or more digits, a dash, then zero or more digits;
`\d+` and `\d*` being greedy, it captures the maximal digit runs. -/

/-- Value of a digit string, as the Python `int` on the captured group. -/
def digitsVal (ds : List Char) : ℕ :=
  ds.foldl (fun n c => 10 * n + (c.toNat - 48)) 0

/-- The regex match `re.match(r"bytes=(\d+)-(\d*)", h)`: returns the start
byte and, when the second group is non-empty, the end byte. -/
def parseRangeHeader (h : List Char) : Option (ℕ × Option ℕ) :=
  if h.take 6 = ['b', 'y', 't', 'e', 's', '='] then
    let rest := h.drop 6
    let ds := rest.takeWhile Char.isDigit
    if ds.isEmpty then none
    else
      match rest.drop ds.length with
      | '-' :: rest3 =>
          let es := rest3.takeWhile Char.isDigit
          some (digitsVal ds, if es.isEmpty then none else some (digitsVal es))
      | _ => none
  else none

/-- Chunk bound `min(1024*1024, remaining)` of `iterfile`. -/
def CHUNK_SIZE : ℕ := 1024 * 1024

/-- The `iterfile` generator after `f.seek(start)`: `data` is the file
content past the seek position and `remaining` the declared length; each
iteration reads `min(1024*1024, remaining)` bytes, stops when the read is
empty or `remaining` reaches zero. -/
def readChunks (data : List ℕ) (remaining : ℕ) : List (List ℕ) :=
  if hr : 0 < remaining then
    if hc2 : (data.take (min CHUNK_SIZE remaining)).length = 0 then []
    else
      data.take (min CHUNK_SIZE remaining) ::
        readChunks (data.drop ((data.take (min CHUNK_SIZE remaining)).length))
          (remaining - (data.take (min CHUNK_SIZE remaining)).length)
  else []
termination_by remaining
decreasing_by omega

/-- Clamping `end = min(end, file_size - 1)`, with `end = file_size - 1` when the
second regex group was empty. -/
def clampedEnd (endOpt : Option ℕ) (file_size : ℕ) : ℤ :=
  min
    (match endOpt with
     | some e2 => (e2 : ℤ)
     | none => (file_size : ℤ) - 1)
    ((file_size : ℤ) - 1)

/-- Declared length `end - start + 1`. -/
def contentLen (start : ℕ) (endOpt : Option ℕ) (file_size : ℕ) : ℤ :=
  clampedEnd endOpt file_size - (start : ℤ) + 1

/-- The headers dict built for the 206 response. -/
def rangeHeaders (start : ℕ) (endB : ℤ) (file_size : ℕ) (length : ℤ) :
    List (String × String) :=
  [("Content-Range",
      "bytes " ++ toString start ++ "-" ++ toString endB ++ "/" ++
        toString file_size),
   ("Accept-Ranges", "bytes"),
   ("Content-Length", toString length)]

/-- The three response shapes `_range_file` can produce. -/
inductive RangeResponse where
  | notFound : RangeResponse
  | fullFile : RangeResponse
  | partialResp : ℕ → ℤ → ℕ → ℤ → List (String × String) → List (List ℕ) →
      RangeResponse
deriving DecidableEq

/-- HTTP status of each response shape: `HTTPException(404)`,
`FileResponse` (200), `StreamingResponse(status_code=206)`. -/
def statusOf : RangeResponse → ℕ
  | RangeResponse.notFound => 404
  | RangeResponse.fullFile => 200
  | RangeResponse.partialResp _ _ _ _ _ _ => 206

/-- Embedding of `_range_file`: 404 when the file is missing; otherwise a 206 partial
response when a `Range` header is present and the regex matches, carrying
start, clamped end, file size, declared length, headers and body chunks;
otherwise the full-file 200 response. -/
def range_file (file : Option (List ℕ)) (rangeHeader : Option String) :
    RangeResponse :=
  match file with
  | none => RangeResponse.notFound
  | some content =>
      match rangeHeader with
      | none => RangeResponse.fullFile
      | some h =>
          match parseRangeHeader h.toList with
          | none => RangeResponse.fullFile
          | some (start, endOpt) =>
              let file_size := content.length
              let e := clampedEnd endOpt file_size
              let length := contentLen start endOpt file_size
              RangeResponse.partialResp start e file_size length
                (rangeHeaders start e file_size length)
                (readChunks (content.drop start) length.toNat)

/-! ## Artifact Lifecycle Manager (`clean_dirs`, fyp.py lines 55-64) and the
`process_video` control flow (fyp.py lines 189-318)

File names are lists of characters; each file carries a flag saying whether
`os.remove` succeeds on it.  A failing remove raises `OSError`, modelled by
`Except.error` carrying a message. -/

/-- Test of `f.startswith` on character lists. -/
def charsStartWith : List Char → List Char → Bool
  | _, [] => true
  | [], _ :: _ => false
  | c :: cs, p :: ps => c == p && charsStartWith cs ps

/-- A file on disk: name and whether deleting it succeeds. -/
structure FileEntry where
  name : List Char
  deletable : Bool
deriving DecidableEq

/-- The filesystem regions touched by `clean_dirs`: the clip, frame and
ground-truth directories plus the top-level working directory. -/
structure FS where
  clipDir : List FileEntry
  frameDir : List FileEntry
  gtDir : List FileEntry
  topLevel : List FileEntry
deriving DecidableEq

/-- Loop `for f in os.listdir(d): os.remove(os.path.join(d, f))`: removes every
file of the directory; the first failing remove raises. -/
def removeEach : List FileEntry → Except (List Char) Unit
  | [] => Except.ok ()
  | f :: rest =>
      if f.deletable then removeEach rest
      else Except.error ("cannot remove ".toList ++ f.name)

/-- Match of a name against the processed or combined pattern for `key`. -/
def matchesKey (key : String) (f : FileEntry) : Bool :=
  charsStartWith f.name ("processed_".toList ++ key.toList)
    || charsStartWith f.name ("combined_".toList ++ key.toList)

/-- The `for f in os.listdir()` loop of `clean_dirs`: deletes matching
top-level files, keeps the rest, raising on the first failing remove. -/
def removeMatching (key : String) :
    List FileEntry → Except (List Char) (List FileEntry)
  | [] => Except.ok []
  | f :: rest =>
      if matchesKey key f then
        if f.deletable then removeMatching key rest
        else Except.error ("cannot remove ".toList ++ f.name)
      else
        match removeMatching key rest with
        | Except.ok r => Except.ok (f :: r)
        | Except.error e => Except.error e

/-- Embedding of `clean_dirs(key)`: wipe the clip, frame and ground-truth directories
wholesale (in that order), then delete every top-level `processed_{key}*`
or `combined_{key}*` file.  No exception handler: a failing remove
propagates out. -/
def clean_dirs (key : String) (fsState : FS) : Except (List Char) FS :=
  match removeEach fsState.clipDir with
  | Except.error e => Except.error e
  | Except.ok _ =>
      match removeEach fsState.frameDir with
      | Except.error e => Except.error e
      | Except.ok _ =>
          match removeEach fsState.gtDir with
          | Except.error e => Except.error e
          | Except.ok _ =>
              match removeMatching key fsState.topLevel with
              | Except.error e => Except.error e
              | Except.ok top => Except.ok ⟨[], [], [], top⟩

/-- The externally visible effect steps of `process_video`, in program
order. -/
inductive PEvent where
  | cleanupEv : String → PEvent
  | writeEv : List Char → PEvent
  | uploadEv : PEvent
  | respondEv : PEvent
deriving DecidableEq

/-- Clip file name with the index zero-padded to two digits. -/
def clipName (i : ℕ) : List Char :=
  "clip_".toList
    ++ (if i < 10 then '0' :: Nat.toDigits 10 i else Nat.toDigits 10 i)
    ++ ".mp4".toList

/-- The sequence of effectful steps of one `process_video` request, as laid
out in fyp.py lines 189-318: clean up for the key, save the upload under
`originals/`, write the ground-truth plot, write the annotated full video,
write one clip per segment, and — only when clips exist — write the
combined video, upload it, and write `summaries.json`; finally respond. -/
def process_video_trace (key fname : String) (nclips : ℕ) : List PEvent :=
  [PEvent.cleanupEv key,
   PEvent.writeEv ("originals/".toList ++ fname.toList),
   PEvent.writeEv (key.toList ++ "_groundtruth.png".toList),
   PEvent.writeEv ("processed_".toList ++ key.toList ++ ".mp4".toList)]
  ++ (List.range nclips).map (fun i => PEvent.writeEv (clipName (i + 1)))
  ++ (if nclips = 0 then []
      else [PEvent.writeEv ("combined_".toList ++ key.toList ++ ".mp4".toList),
            PEvent.uploadEv,
            PEvent.writeEv ("summaries.json".toList)])
  ++ [PEvent.respondEv]

/-- The response fields and summary-step effects of one run. -/
structure RunResult where
  original_video : String
  clips : List (List Char)
  summary_file : List Char
  combined_produced : Bool
  uploaded : Bool
deriving DecidableEq

/-- Embedding of `process_video` around the segmenter: run `clean_dirs(key)` first (an
error propagates as the failure of the request), derive one clip per segment,
and run the stitch-upload-summarize step only under `if clip_files:`;
otherwise `summary_file = ""`. -/
def process_video_model (fsState : FS) (key fname : String)
    (segments : List (ℚ × ℚ)) : Except (List Char) RunResult :=
  match clean_dirs key fsState with
  | Except.error e => Except.error e
  | Except.ok _ =>
      let clip_files := (List.range segments.length).map
        (fun i => clipName (i + 1))
      if clip_files.isEmpty then
        Except.ok ⟨fname, clip_files, [], false, false⟩
      else
        Except.ok ⟨fname, clip_files, "summaries.json".toList, true, true⟩

/-! ## Theorems -/

theorem segLoop_eq_foldl (gap : ℚ) :
    ∀ (ts : List ℚ) (segs : List (ℚ × ℚ)) (s e : ℚ),
      segLoop gap segs s e ts =
        (ts.foldl (specStep gap) (segs, s, e)).1 ++
          [((ts.foldl (specStep gap) (segs, s, e)).2.1,
            (ts.foldl (specStep gap) (segs, s, e)).2.2)]
  | [], segs, s, e => rfl
  | t :: ts, segs, s, e => by
      by_cases h : t - e ≤ gap
      · simp only [segLoop, h, if_pos, List.foldl_cons, specStep]
        exact segLoop_eq_foldl gap ts segs s t
      · simp only [segLoop, h, if_neg, if_false, List.foldl_cons, specStep]
        exact segLoop_eq_foldl gap ts (segs ++ [(s, e)]) t t

theorem segLoop_append (gap : ℚ) :
    ∀ (ts : List ℚ) (segs : List (ℚ × ℚ)) (s e : ℚ),
      segLoop gap segs s e ts = segs ++ segLoop gap [] s e ts
  | [], segs, s, e => by simp [segLoop]
  | t :: ts, segs, s, e => by
      by_cases h : t - e ≤ gap
      · simp only [segLoop, h, if_pos]
        exact segLoop_append gap ts segs s t
      · simp only [segLoop, h, if_false, List.nil_append]
        rw [segLoop_append gap ts (segs ++ [(s, e)]) t t,
          segLoop_append gap ts [(s, e)] t t, List.append_assoc]

theorem segLoop_invariant (gap : ℚ) :
    ∀ (ts : List ℚ) (s e : ℚ), ts.Chain' (· ≤ ·) → s ≤ e →
      (∀ t ∈ ts.head?, e ≤ t) →
      (∀ p ∈ segLoop gap [] s e ts, p.1 ≤ p.2)
      ∧ (segLoop gap [] s e ts).Chain' (SegRel gap)
      ∧ ∃ q rest2, segLoop gap [] s e ts = (s, q) :: rest2
  | [], s, e, _, hse, _ => by
      refine ⟨?_, ?_, e, [], rfl⟩
      · intro p hp
        simp only [segLoop, List.nil_append, List.mem_singleton] at hp
        simpa [hp] using hse
      · simp [segLoop]
  | t :: ts, s, e, hch, hse, hhead => by
      have het : e ≤ t := hhead t rfl
      rw [List.chain'_cons'] at hch
      by_cases h : t - e ≤ gap
      · have ih := segLoop_invariant gap ts s t hch.2 (le_trans hse het) hch.1
        simpa only [segLoop, h, if_pos] using ih
      · have ih := segLoop_invariant gap ts t t hch.2 le_rfl hch.1
        obtain ⟨ihmem, ihch, q, rest2, heq⟩ := ih
        simp only [segLoop, h, if_false, List.nil_append,
          segLoop_append gap ts [(s, e)] t t, List.singleton_append]
        refine ⟨?_, ?_, e, segLoop gap [] t t ts, rfl⟩
        · intro p hp
          rcases List.mem_cons.1 hp with hp | hp
          · simpa [hp] using hse
          · exact ihmem p hp
        · rw [heq, List.chain'_cons]
          exact ⟨⟨le_trans hse het, lt_of_not_le h⟩, heq ▸ ihch⟩

theorem insertionSort_eq_nil_iff (l : List ℚ) :
    l.insertionSort (· ≤ ·) = [] ↔ l = [] := by
  constructor
  · intro h
    have := List.perm_insertionSort (· ≤ ·) l
    rw [h] at this
    exact this.symm.eq_nil
  · intro h
    simp [h]

/-- C1: For every list of timestamps and gap tolerance `g ≥ 0`,
`find_abnormal_segments` returns exactly the segments produced by the
algorithm of the spec (sort ascending; open at `(t0, t0)`; extend the current
end while `t - current.end ≤ g`, otherwise close and restart; close the
final segment); empty input yields `[]`, a single timestamp `t` yields
`[(t, t)]`, and `[1.0, 2.5, 3.0, 10.0]` with gap `4.0` yields
`[(1.0, 3.0), (10.0, 10.0)]`. -/
theorem c1_segmenter_matches_spec (timestamps : List ℚ) (gap : ℚ)
    (_hg : 0 ≤ gap) :
    find_abnormal_segments timestamps gap = segmentsSpec timestamps gap
    ∧ find_abnormal_segments [] gap = []
    ∧ (∀ t : ℚ, find_abnormal_segments [t] gap = [(t, t)])
    ∧ find_abnormal_segments [1, 5/2, 3, 10] 4 = [(1, 3), (10, 10)] := by
  refine ⟨?_, rfl, fun t => rfl, ?_⟩
  · unfold find_abnormal_segments find_abnormal_segments_run segmentsSpec
    by_cases hemp : timestamps = []
    · simp [hemp]
    · rw [if_neg (by simpa [List.isEmpty_iff] using hemp)]
      cases h : timestamps.insertionSort (· ≤ ·) with
      | nil => exact absurd ((insertionSort_eq_nil_iff timestamps).1 h) hemp
      | cons t0 rest => simpa using segLoop_eq_foldl gap rest [] t0 t0
  · norm_num [find_abnormal_segments, find_abnormal_segments_run, segLoop]

/-- Closed-form use of `c1_segmenter_matches_spec` at a concrete input. -/
theorem c1_segmenter_matches_spec_witness :
    find_abnormal_segments [1, 5/2, 3, 10] 4 = segmentsSpec [1, 5/2, 3, 10] 4
    ∧ find_abnormal_segments [1, 5/2, 3, 10] 4 = [(1, 3), (10, 10)] :=
  ⟨(c1_segmenter_matches_spec [1, 5/2, 3, 10] 4 (by norm_num)).1,
   (c1_segmenter_matches_spec [1, 5/2, 3, 10] 4 (by norm_num)).2.2.2⟩

/-- C2: For every input and `g ≥ 0`: every returned segment `(s, e)` has
`s ≤ e`, the starts are in non-decreasing order, and consecutive segments
`(s1, e1), (s2, e2)` satisfy `s2 - e1 > g`. -/
theorem c2_segment_invariants (timestamps : List ℚ) (gap : ℚ)
    (_hg : 0 ≤ gap) :
    (∀ p ∈ find_abnormal_segments timestamps gap, p.1 ≤ p.2)
    ∧ ((find_abnormal_segments timestamps gap).map Prod.fst).Sorted (· ≤ ·)
    ∧ (find_abnormal_segments timestamps gap).Chain'
        (fun p q => q.1 - p.2 > gap) := by
  have key : (∀ p ∈ find_abnormal_segments timestamps gap, p.1 ≤ p.2)
      ∧ (find_abnormal_segments timestamps gap).Chain' (SegRel gap) := by
    unfold find_abnormal_segments find_abnormal_segments_run
    by_cases hemp : timestamps = []
    · simp [hemp]
    · rw [if_neg (by simpa [List.isEmpty_iff] using hemp)]
      cases h : timestamps.insertionSort (· ≤ ·) with
      | nil => exact absurd ((insertionSort_eq_nil_iff timestamps).1 h) hemp
      | cons t0 rest =>
          have hsorted := List.sorted_insertionSort (· ≤ ·) timestamps
          rw [h] at hsorted
          have hch := hsorted.chain'
          rw [List.chain'_cons'] at hch
          have := segLoop_invariant gap rest t0 t0 hch.2 le_rfl hch.1
          exact ⟨this.1, this.2.1⟩
  refine ⟨key.1, ?_, ?_⟩
  · rw [List.Sorted, ← List.chain'_iff_pairwise, List.chain'_map]
    exact key.2.imp (fun a b hab => hab.1)
  · exact key.2.imp (fun a b hab => hab.2)

/-- Closed-form use of `c2_segment_invariants` at a concrete input. -/
theorem c2_segment_invariants_witness :
    (∀ p ∈ find_abnormal_segments [1, 5/2, 3, 10] 4, p.1 ≤ p.2)
    ∧ ((find_abnormal_segments [1, 5/2, 3, 10] 4).map Prod.fst).Sorted (· ≤ ·)
    ∧ (find_abnormal_segments [1, 5/2, 3, 10] 4).Chain'
        (fun p q => q.1 - p.2 > 4) :=
  c2_segment_invariants [1, 5/2, 3, 10] 4 (by norm_num)

/-- C10: `find_abnormal_segments` sorts its argument in place: for every
non-empty input, the post-call state of the argument list is the ascending
stable sort of the input (a sorted permutation of it), and the returned
segments are the ones computed from that sorted list. -/
theorem c10_sorts_argument_in_place (timestamps : List ℚ) (gap : ℚ)
    (hne : timestamps ≠ []) :
    (find_abnormal_segments_run timestamps gap).1 =
        timestamps.insertionSort (· ≤ ·)
    ∧ ((find_abnormal_segments_run timestamps gap).1).Sorted (· ≤ ·)
    ∧ List.Perm (find_abnormal_segments_run timestamps gap).1 timestamps
    ∧ (find_abnormal_segments_run timestamps gap).2 =
        find_abnormal_segments
          ((find_abnormal_segments_run timestamps gap).1) gap := by
  have hpost : (find_abnormal_segments_run timestamps gap).1 =
      timestamps.insertionSort (· ≤ ·) := by
    unfold find_abnormal_segments_run
    rw [if_neg (by simpa [List.isEmpty_iff] using hne)]
    cases h : timestamps.insertionSort (· ≤ ·) with
    | nil => exact absurd ((insertionSort_eq_nil_iff timestamps).1 h) hne
    | cons t0 rest => rfl
  have hsorted : ((find_abnormal_segments_run timestamps gap).1).Sorted
      (· ≤ ·) := by
    rw [hpost]; exact List.sorted_insertionSort (· ≤ ·) timestamps
  refine ⟨hpost, hsorted, ?_, ?_⟩
  · rw [hpost]; exact List.perm_insertionSort (· ≤ ·) timestamps
  · cases h : timestamps.insertionSort (· ≤ ·) with
    | nil => exact absurd ((insertionSort_eq_nil_iff timestamps).1 h) hne
    | cons t0 rest =>
        have hpost2 : (find_abnormal_segments_run timestamps gap).1 =
            t0 :: rest := by rw [hpost, h]
        have hrun2 : (find_abnormal_segments_run timestamps gap).2 =
            segLoop gap [] t0 t0 rest := by
          unfold find_abnormal_segments_run
          rw [if_neg (by simpa [List.isEmpty_iff] using hne), h]
        have hsorted2 : List.Sorted (· ≤ ·) (t0 :: rest) := by
          have := List.sorted_insertionSort (· ≤ ·) timestamps
          rwa [h] at this
        have hs : (t0 :: rest).insertionSort (· ≤ ·) = t0 :: rest :=
          hsorted2.insertionSort_eq
        rw [hpost2, hrun2]
        unfold find_abnormal_segments find_abnormal_segments_run
        rw [if_neg (by simp), hs]

/-- Closed-form use of `c10_sorts_argument_in_place` at a concrete input. -/
theorem c10_sorts_argument_in_place_witness :
    (find_abnormal_segments_run [3, 1, 2] 0).1 =
        ([3, 1, 2] : List ℚ).insertionSort (· ≤ ·)
    ∧ ((find_abnormal_segments_run [3, 1, 2] 0).1).Sorted (· ≤ ·)
    ∧ List.Perm (find_abnormal_segments_run [3, 1, 2] 0).1 ([3, 1, 2] : List ℚ)
    ∧ (find_abnormal_segments_run [3, 1, 2] 0).2 =
        find_abnormal_segments ((find_abnormal_segments_run [3, 1, 2] 0).1) 0 :=
  c10_sorts_argument_in_place [3, 1, 2] 0 (by simp)

/-- C5: For every segment `(s, e)` with `0 ≤ s ≤ e ≤ L`, margin `m ≥ 0`
and video length `L`, the margined bounds equal
`(max(0, s - m), min(L, e + m))` and satisfy `0 ≤ start ≤ end ≤ L`. -/
theorem c5_margin_clamping (s e m L : ℚ) (hs : 0 ≤ s) (hse : s ≤ e)
    (heL : e ≤ L) (hm : 0 ≤ m) :
    margined_bounds s e m L = (max 0 (s - m), min L (e + m))
    ∧ 0 ≤ (margined_bounds s e m L).1
    ∧ (margined_bounds s e m L).1 ≤ (margined_bounds s e m L).2
    ∧ (margined_bounds s e m L).2 ≤ L := by
  refine ⟨rfl, le_max_left 0 (s - m), ?_, min_le_left L (e + m)⟩
  simp only [margined_bounds, max_le_iff, le_min_iff]
  constructor
  · constructor <;> linarith
  · constructor <;> linarith

/-- Closed-form use of `c5_margin_clamping` at a concrete input. -/
theorem c5_margin_clamping_witness :
    margined_bounds 1 3 5 8 = (max 0 (1 - 5), min 8 (3 + 5))
    ∧ 0 ≤ (margined_bounds 1 3 5 8).1
    ∧ (margined_bounds 1 3 5 8).1 ≤ (margined_bounds 1 3 5 8).2
    ∧ (margined_bounds 1 3 5 8).2 ≤ 8 :=
  c5_margin_clamping 1 3 5 8 (by norm_num) (by norm_num) (by norm_num)
    (by norm_num)

theorem readChunks_flatten (data : List ℕ) (remaining : ℕ) :
    (readChunks data remaining).flatten = data.take remaining := by
  induction remaining using Nat.strong_induction_on generalizing data with
  | _ r ih =>
    rw [readChunks.eq_def]
    by_cases hr : 0 < r
    · rw [dif_pos hr]
      by_cases hc : (data.take (min CHUNK_SIZE r)).length = 0
      · rw [dif_pos hc]
        have hdata : data = [] := by
          cases data with
          | nil => rfl
          | cons a l =>
              exfalso
              have hmin : 0 < min CHUNK_SIZE r :=
                lt_min (by norm_num [CHUNK_SIZE]) hr
              rw [List.length_take] at hc
              simp only [List.length_cons] at hc
              omega
        simp [hdata]
      · rw [dif_neg hc]
        have hlen : 0 < (data.take (min CHUNK_SIZE r)).length :=
          Nat.pos_of_ne_zero hc
        have hle : (data.take (min CHUNK_SIZE r)).length ≤ r := by
          rw [List.length_take]
          omega
        have htake : data.take ((data.take (min CHUNK_SIZE r)).length) =
            data.take (min CHUNK_SIZE r) := by
          rw [List.length_take, List.take_eq_take]
          omega
        rw [List.flatten_cons,
          ih (r - (data.take (min CHUNK_SIZE r)).length) (by omega)
            (data.drop ((data.take (min CHUNK_SIZE r)).length))]
        calc data.take (min CHUNK_SIZE r) ++
              (data.drop ((data.take (min CHUNK_SIZE r)).length)).take
                (r - (data.take (min CHUNK_SIZE r)).length)
            = data.take ((data.take (min CHUNK_SIZE r)).length) ++
              (data.drop ((data.take (min CHUNK_SIZE r)).length)).take
                (r - (data.take (min CHUNK_SIZE r)).length) := by rw [htake]
          _ = data.take ((data.take (min CHUNK_SIZE r)).length +
                (r - (data.take (min CHUNK_SIZE r)).length)) :=
              (List.take_add data _ _).symm
          _ = data.take r := by rw [Nat.add_sub_cancel' hle]
    · rw [dif_neg hr]
      have : r = 0 := by omega
      simp [this]

theorem readChunks_bounded (data : List ℕ) (remaining : ℕ) :
    ∀ c ∈ readChunks data remaining, c ≠ [] ∧ c.length ≤ CHUNK_SIZE := by
  induction remaining using Nat.strong_induction_on generalizing data with
  | _ r ih =>
    rw [readChunks.eq_def]
    by_cases hr : 0 < r
    · rw [dif_pos hr]
      by_cases hc : (data.take (min CHUNK_SIZE r)).length = 0
      · rw [dif_pos hc]
        intro c hcmem
        exact absurd hcmem (List.not_mem_nil c)
      · rw [dif_neg hc]
        intro c hcmem
        rcases List.mem_cons.1 hcmem with hcmem | hcmem
        · subst hcmem
          refine ⟨fun hnil => hc (by rw [hnil]; rfl), ?_⟩
          rw [List.length_take]
          omega
        · exact ih (r - (data.take (min CHUNK_SIZE r)).length)
            (by have := Nat.pos_of_ne_zero hc; omega) _ c hcmem
    · rw [dif_neg hr]
      intro c hcmem
      exact absurd hcmem (List.not_mem_nil c)

theorem readChunks_of_nonpos (data : List ℕ) : readChunks data 0 = [] := by
  rw [readChunks.eq_def]
  rw [dif_neg (by omega)]

/-- C3: For one request to `_range_file`: a missing file gives 404
regardless of headers (checked first); an existing file with no `Range`
header gives the 200 full-file response; a `Range` header matching
`bytes=<start>-<end?>` gives a 206 partial response; an unparseable
`Range` header falls back to the 200 full-file response. -/
theorem c3_range_endpoint_states (file : Option (List ℕ))
    (rangeHeader : Option String) :
    (file = none → statusOf (range_file file rangeHeader) = 404)
    ∧ (∀ content, file = some content → rangeHeader = none →
        range_file file rangeHeader = RangeResponse.fullFile)
    ∧ (∀ content h start endOpt, file = some content → rangeHeader = some h →
        parseRangeHeader h.toList = some (start, endOpt) →
        statusOf (range_file file rangeHeader) = 206)
    ∧ (∀ content h, file = some content → rangeHeader = some h →
        parseRangeHeader h.toList = none →
        range_file file rangeHeader = RangeResponse.fullFile) := by
  refine ⟨?_, ?_, ?_, ?_⟩
  · intro hf
    subst hf
    rfl
  · intro content hf hh
    subst hf
    subst hh
    rfl
  · intro content h start endOpt hf hh hp
    subst hf
    subst hh
    show statusOf (range_file (some content) (some h)) = 206
    simp only [range_file, hp]
    rfl
  · intro content h hf hh hp
    subst hf
    subst hh
    show range_file (some content) (some h) = RangeResponse.fullFile
    simp only [range_file, hp]

/-- Closed-form uses of `c3_range_endpoint_states` at concrete inputs. -/
theorem c3_range_endpoint_states_witness :
    statusOf (range_file none (some ("bytes=0-1"))) = 404
    ∧ range_file (some [7]) none = RangeResponse.fullFile
    ∧ statusOf (range_file (some [7]) (some ("bytes=0-0"))) = 206
    ∧ range_file (some [7]) (some ("units=0-1")) = RangeResponse.fullFile :=
  ⟨(c3_range_endpoint_states none (some ("bytes=0-1"))).1 rfl,
   (c3_range_endpoint_states (some [7]) none).2.1 [7] rfl rfl,
   (c3_range_endpoint_states (some [7]) (some ("bytes=0-0"))).2.2.1
     [7] ("bytes=0-0") 0 (some 0) rfl rfl rfl,
   (c3_range_endpoint_states (some [7]) (some ("units=0-1"))).2.2.2
     [7] ("units=0-1") rfl rfl rfl⟩

/-- C4: For every existing file and parseable header
`bytes=<start>-<end?>`: the response is the 206 partial response whose end
is `file_size - 1` when the header omits it and is clamped to at most
`file_size - 1` otherwise; its headers are `Content-Range:
bytes <start>-<end>/<file_size>`, `Accept-Ranges: bytes` and
`Content-Length: <end - start + 1>`; its body chunks concatenate to the
requested byte range of the file and each chunk is non-empty and of at
most `1024 * 1024` bytes. -/
theorem c4_partial_response (content : List ℕ) (h : String) (start : ℕ)
    (endOpt : Option ℕ)
    (hp : parseRangeHeader h.toList = some (start, endOpt)) :
    range_file (some content) (some h) =
      RangeResponse.partialResp start (clampedEnd endOpt content.length)
        content.length (contentLen start endOpt content.length)
        (rangeHeaders start (clampedEnd endOpt content.length) content.length
          (contentLen start endOpt content.length))
        (readChunks (content.drop start)
          (contentLen start endOpt content.length).toNat)
    ∧ statusOf (range_file (some content) (some h)) = 206
    ∧ (endOpt = none →
        clampedEnd endOpt content.length = (content.length : ℤ) - 1)
    ∧ (∀ e2, endOpt = some e2 →
        clampedEnd endOpt content.length =
          min (e2 : ℤ) ((content.length : ℤ) - 1))
    ∧ clampedEnd endOpt content.length ≤ (content.length : ℤ) - 1
    ∧ contentLen start endOpt content.length =
        clampedEnd endOpt content.length - (start : ℤ) + 1
    ∧ rangeHeaders start (clampedEnd endOpt content.length) content.length
        (contentLen start endOpt content.length) =
        [("Content-Range",
            "bytes " ++ toString start ++ "-" ++
              toString (clampedEnd endOpt content.length) ++ "/" ++
              toString content.length),
         ("Accept-Ranges", "bytes"),
         ("Content-Length", toString (contentLen start endOpt content.length))]
    ∧ (readChunks (content.drop start)
        (contentLen start endOpt content.length).toNat).flatten =
        (content.drop start).take
          (contentLen start endOpt content.length).toNat
    ∧ (∀ c ∈ readChunks (content.drop start)
        (contentLen start endOpt content.length).toNat,
        c ≠ [] ∧ c.length ≤ CHUNK_SIZE) := by
  refine ⟨?_, ?_, ?_, ?_, ?_, rfl, rfl, ?_, ?_⟩
  · simp only [range_file, hp]
  · show statusOf (range_file (some content) (some h)) = 206
    simp only [range_file, hp]
    rfl
  · intro he
    subst he
    unfold clampedEnd
    exact min_self _
  · intro e2 he
    subst he
    rfl
  · exact min_le_right _ _
  · exact readChunks_flatten _ _
  · exact readChunks_bounded _ _

/-- Closed-form use of `c4_partial_response` at a concrete input. -/
theorem c4_partial_response_witness :
    parseRangeHeader ("bytes=1-3" : String).toList = some (1, some 3)
    ∧ statusOf (range_file (some [10, 20, 30, 40, 50]) (some ("bytes=1-3"))) =
        206 :=
  ⟨rfl,
   (c4_partial_response [10, 20, 30, 40, 50] ("bytes=1-3") 1 (some 3) rfl).2.1⟩

/-- C9: When a parseable header requests `start ≥ file_size`,
`_range_file` still answers 206 (start is never validated against the file
size): the clamped end `file_size - 1` lies strictly below `start`, the
declared `Content-Length` `end - start + 1` is zero or negative, and the
streamed body is empty. -/
theorem c9_start_beyond_eof (content : List ℕ) (h : String) (start : ℕ)
    (endOpt : Option ℕ)
    (hp : parseRangeHeader h.toList = some (start, endOpt))
    (hstart : content.length ≤ start) :
    statusOf (range_file (some content) (some h)) = 206
    ∧ clampedEnd endOpt content.length < (start : ℤ)
    ∧ contentLen start endOpt content.length ≤ 0
    ∧ readChunks (content.drop start)
        (contentLen start endOpt content.length).toNat = [] := by
  have hclamp : clampedEnd endOpt content.length ≤ (content.length : ℤ) - 1 :=
    min_le_right _ _
  have hlt : clampedEnd endOpt content.length < (start : ℤ) := by
    have : (content.length : ℤ) ≤ (start : ℤ) := by exact_mod_cast hstart
    omega
  have hlen : contentLen start endOpt content.length ≤ 0 := by
    unfold contentLen
    omega
  refine ⟨?_, hlt, hlen, ?_⟩
  · show statusOf (range_file (some content) (some h)) = 206
    simp only [range_file, hp]
    rfl
  · have : (contentLen start endOpt content.length).toNat = 0 :=
      Int.toNat_of_nonpos hlen
    rw [this]
    exact readChunks_of_nonpos _

/-- Closed-form use of `c9_start_beyond_eof` at a concrete input
(`bytes=3-` on a 3-byte file). -/
theorem c9_start_beyond_eof_witness :
    parseRangeHeader ("bytes=3-" : String).toList = some (3, none)
    ∧ statusOf (range_file (some [1, 2, 3]) (some ("bytes=3-"))) = 206
    ∧ contentLen 3 none ([1, 2, 3] : List ℕ).length ≤ 0
    ∧ readChunks (([1, 2, 3] : List ℕ).drop 3)
        (contentLen 3 none ([1, 2, 3] : List ℕ).length).toNat = [] :=
  ⟨rfl,
   (c9_start_beyond_eof [1, 2, 3] ("bytes=3-") 3 none rfl (by norm_num)).1,
   (c9_start_beyond_eof [1, 2, 3] ("bytes=3-") 3 none rfl (by norm_num)).2.2.1,
   (c9_start_beyond_eof [1, 2, 3] ("bytes=3-") 3 none rfl (by norm_num)).2.2.2⟩

theorem removeMatching_ok (key : String) :
    ∀ (l r : List FileEntry), removeMatching key l = Except.ok r →
      ∀ f ∈ r, matchesKey key f = false
  | [], r, hok => by
      intro f hf
      simp only [removeMatching] at hok
      cases hok
      exact absurd hf (List.not_mem_nil f)
  | g :: rest, r, hok => by
      intro f hf
      simp only [removeMatching] at hok
      by_cases hm : matchesKey key g
      · rw [if_pos hm] at hok
        by_cases hd : g.deletable
        · rw [if_pos hd] at hok
          exact removeMatching_ok key rest r hok f hf
        · rw [if_neg hd] at hok
          cases hok
      · rw [if_neg hm] at hok
        cases hrec : removeMatching key rest with
        | error e => rw [hrec] at hok; cases hok
        | ok r2 =>
            rw [hrec] at hok
            cases hok
            rcases List.mem_cons.1 hf with hf | hf
            · subst hf
              exact Bool.eq_false_iff.mpr hm
            · exact removeMatching_ok key rest r2 hrec f hf

/-- C6: After a completed `clean_dirs(key)` the clip, frame and
ground-truth directories contain no files (a wholesale sweep, not scoped
to the key), no top-level file named `processed_{key}*` or `combined_{key}*`
remains, and in `process_video` this cleanup is the first effectful step —
strictly before every write of the new run. -/
theorem c6_cleanup_postcondition (key : String) (fsState fs2 : FS)
    (hok : clean_dirs key fsState = Except.ok fs2) (fname : String)
    (nclips : ℕ) :
    fs2.clipDir = [] ∧ fs2.frameDir = [] ∧ fs2.gtDir = []
    ∧ (∀ f ∈ fs2.topLevel, matchesKey key f = false)
    ∧ (process_video_trace key fname nclips).head? =
        some (PEvent.cleanupEv key)
    ∧ (∀ i s, (process_video_trace key fname nclips).get? i =
        some (PEvent.writeEv s) → 0 < i) := by
  have hstruct : fs2.clipDir = [] ∧ fs2.frameDir = [] ∧ fs2.gtDir = []
      ∧ (∀ f ∈ fs2.topLevel, matchesKey key f = false) := by
    unfold clean_dirs at hok
    cases h1 : removeEach fsState.clipDir with
    | error e => rw [h1] at hok; cases hok
    | ok u1 =>
        rw [h1] at hok
        cases h2 : removeEach fsState.frameDir with
        | error e => rw [h2] at hok; cases hok
        | ok u2 =>
            rw [h2] at hok
            cases h3 : removeEach fsState.gtDir with
            | error e => rw [h3] at hok; cases hok
            | ok u3 =>
                rw [h3] at hok
                cases h4 : removeMatching key fsState.topLevel with
                | error e => rw [h4] at hok; cases hok
                | ok top =>
                    rw [h4] at hok
                    cases hok
                    exact ⟨rfl, rfl, rfl, removeMatching_ok key _ top h4⟩
  refine ⟨hstruct.1, hstruct.2.1, hstruct.2.2.1, hstruct.2.2.2, rfl, ?_⟩
  intro i s hget
  cases i with
  | zero =>
      exfalso
      simp only [process_video_trace, List.cons_append, List.get?] at hget
      cases hget
  | succ n => exact Nat.succ_pos n

/-- Closed-form use of `c6_cleanup_postcondition` at a concrete input. -/
theorem c6_cleanup_postcondition_witness :
    (⟨[], [], [], [⟨"other.txt".toList, true⟩]⟩ : FS).clipDir = []
    ∧ (⟨[], [], [], [⟨"other.txt".toList, true⟩]⟩ : FS).frameDir = []
    ∧ (⟨[], [], [], [⟨"other.txt".toList, true⟩]⟩ : FS).gtDir = []
    ∧ (∀ f ∈ (⟨[], [], [], [⟨"other.txt".toList, true⟩]⟩ : FS).topLevel,
        matchesKey ("k") f = false)
    ∧ (process_video_trace ("k") ("v.mp4") 0).head? =
        some (PEvent.cleanupEv ("k"))
    ∧ (∀ i s, (process_video_trace ("k") ("v.mp4") 0).get? i =
        some (PEvent.writeEv s) → 0 < i) :=
  c6_cleanup_postcondition ("k")
    ⟨[⟨"clip_01.mp4".toList, true⟩], [⟨"frame_000001.jpg".toList, true⟩],
      [⟨"k_groundtruth.png".toList, true⟩],
      [⟨"processed_k.mp4".toList, true⟩, ⟨"other.txt".toList, true⟩]⟩
    ⟨[], [], [], [⟨"other.txt".toList, true⟩]⟩ rfl ("v.mp4") 0

/-- C7 counterexample: the claim that a failing delete during cleanup is
not propagated as a request failure and that the run proceeds is false: with
one undeletable file in the clip directory, `clean_dirs` raises and
`process_video` fails with that very error instead of proceeding. -/
theorem c7_cleanup_failure_counterexample :
    clean_dirs ("k") (⟨[⟨"clip_01.mp4".toList, false⟩], [], [], []⟩ : FS) =
      Except.error ("cannot remove ".toList ++ "clip_01.mp4".toList)
    ∧ process_video_model (⟨[⟨"clip_01.mp4".toList, false⟩], [], [], []⟩ : FS)
        ("k") ("v.mp4") [(1, 1)] =
      Except.error ("cannot remove ".toList ++ "clip_01.mp4".toList)
    ∧ (∀ r, process_video_model
        (⟨[⟨"clip_01.mp4".toList, false⟩], [], [], []⟩ : FS)
        ("k") ("v.mp4") [(1, 1)] ≠ Except.ok r) := by
  refine ⟨rfl, rfl, ?_⟩
  intro r hr
  cases hr

/-- C7 amended: If a delete fails during the cleanup sweep, the
exception propagates out of `clean_dirs` and aborts the processing run:
the request fails with the remove error and does not proceed. -/
theorem c7_cleanup_failure_propagates (fsState : FS) (key fname : String)
    (segments : List (ℚ × ℚ)) (e : List Char)
    (herr : clean_dirs key fsState = Except.error e) :
    process_video_model fsState key fname segments = Except.error e := by
  unfold process_video_model
  rw [herr]

/-- Closed-form use of `c7_cleanup_failure_propagates` at a concrete
input. -/
theorem c7_cleanup_failure_propagates_witness :
    process_video_model (⟨[], [⟨"frame_000001.jpg".toList, false⟩], [], []⟩ : FS)
        ("k") ("v.mp4") [] =
      Except.error ("cannot remove ".toList ++ "frame_000001.jpg".toList) :=
  c7_cleanup_failure_propagates
    (⟨[], [⟨"frame_000001.jpg".toList, false⟩], [], []⟩ : FS) ("k") ("v.mp4") []
    ("cannot remove ".toList ++ "frame_000001.jpg".toList) rfl

/-- C8: When the segmenter returns no segments, the whole
combine-upload-summarize step is skipped: the run succeeds with no
combined artifact produced, nothing uploaded, an empty `summary_file`,
and an empty clip list; the trace of a zero-clip run contains no upload
event. -/
theorem c8_empty_segments_skip_combined (fsState : FS) (key fname : String)
    (fs2 : FS) (hok : clean_dirs key fsState = Except.ok fs2) :
    process_video_model fsState key fname [] =
      Except.ok ⟨fname, [], [], false, false⟩
    ∧ PEvent.uploadEv ∉ process_video_trace key fname 0 := by
  constructor
  · unfold process_video_model
    rw [hok]
    rfl
  · simp [process_video_trace]

/-- Closed-form use of `c8_empty_segments_skip_combined` at a concrete
input. -/
theorem c8_empty_segments_skip_combined_witness :
    process_video_model (⟨[], [], [], []⟩ : FS) ("k") ("v.mp4") [] =
      Except.ok ⟨"v.mp4", [], [], false, false⟩
    ∧ PEvent.uploadEv ∉ process_video_trace ("k") ("v.mp4") 0 :=
  c8_empty_segments_skip_combined (⟨[], [], [], []⟩ : FS) ("k") ("v.mp4")
    (⟨[], [], [], []⟩ : FS) rfl
